import Mathlib

/-!
Shallow embedding of `errata-email-notifications.py` (AlmaLinux errata
email notification script).

The script polls per-distribution errata JSON feeds, keeps one watermark
timestamp per distribution in a file `<dist>_last_processed_ts`, and sends
one email per entry newer than the watermark, advancing the watermark after
each successful send.

Modelling choices:
* File system state is an association list from full path to the stored
  integer timestamp (the only files the `run` loop reads or writes are the
  watermark files; the content round-trips through `str`/`int`, so we store
  the integer directly).  `writeFile` prepends, `lookupFile` takes the first
  match, so a write shadows the previous value.
* `os.path.join BASEPATH f` and the bare relative path used by
  `os.path.exists` are modelled by `joinPath` applied to two abstract
  directory strings `basepath` and `cwd` carried in the environment.
* The SMTP session and the file writes that can raise inside the
  `try` block are modelled by oracles `sendOk`/`writeOk : Nat → Bool`,
  indexed by the number of send attempts (resp. `save_last_processed_ts`
  calls) made so far in the run: `false` means the call raises.
* An exception escaping `run` (the uncaught `FileNotFoundError` of the
  watermark read, or a failing bootstrap save) is the `.error` branch of
  `Except`, carrying the durable state at the point of the crash.
* Emails are recorded as `(distribution, errata)` pairs: `attempted` logs
  every `smtp_session.send` call, `sent` the successful ones, in order.
-/

namespace ErrataEmailNotifications

/-- One element of an errata entry's `references` array: `{id, href}`. -/
structure Reference where
  id : String
  href : String
deriving DecidableEq, Repr

/-- One errata entry as consumed by the script: fields `type`, `title`,
`severity`, `description`, `updateinfo_id`, `updated_date.$date`
(milliseconds since epoch) and `references`. -/
structure Errata where
  type : String
  title : String
  severity : String
  description : String
  updateinfo_id : String
  updated_date : Int
  references : List Reference
deriving DecidableEq, Repr

instance : Inhabited Errata := ⟨⟨"", "", "", "", "", 0, []⟩⟩

/-- Durable file state: association list from full path to stored
timestamp; the first binding for a path is its current content. -/
abbrev FileMap := List (String × Int)

/-- Current content of the file at path `p`, `none` if it does not exist. -/
def lookupFile (fs : FileMap) (p : String) : Option Int :=
  (fs.find? (fun kv => kv.1 == p)).map (fun kv => kv.2)

/-- Overwrite (or create) the file at path `p` with timestamp `v`. -/
def writeFile (fs : FileMap) (p : String) (v : Int) : FileMap :=
  (p, v) :: fs

/-- Python's `os.path.join d f` for a relative `f`: `d ++ "/" ++ f`, or `f` itself
when `d` is empty (Python's behaviour for `os.path.join("", f)`). -/
def joinPath (d f : String) : String :=
  if d = "" then f else d ++ "/" ++ f

/-- The static `DISTRIBUTIONS_ERRATA_URL` distribution → feed-URL map. -/
def DISTRIBUTIONS_ERRATA_URL : List (String × String) :=
  [("almalinux-8", "https://errata.almalinux.org/8/errata.json"),
   ("almalinux-9", "https://errata.almalinux.org/9/errata.json")]

/-- External-world parameters of one `run` invocation. -/
structure Env where
  /-- Result of `urlopen`+`json.loads` per URL; `none` models any exception
  inside the `try` of `fetch_errata_data`. -/
  feed : String → Option (List Errata)
  /-- Value of `BASEPATH`, the directory of the script. -/
  basepath : String
  /-- The process working directory, against which the bare relative path
  in `os.path.exists` is resolved. -/
  cwd : String
  /-- Outcome `sendOk n`: whether the `n`-th `smtp_session.send` call of the run
  (0-indexed) succeeds. -/
  sendOk : Nat → Bool
  /-- Outcome `writeOk n`: whether the `n`-th `save_last_processed_ts` call of the
  run (0-indexed) succeeds. -/
  writeOk : Nat → Bool

/-- Mutable state threaded through one `run` invocation.  `files` is the
durable part; `sent`/`attempted` record the emails for the analysis. -/
structure RunState where
  files : FileMap
  sent : List (String × Errata)
  attempted : List (String × Errata)
  sendCnt : Nat
  writeCnt : Nat
deriving DecidableEq, Repr

/-- Fresh per-run state over durable files `fs`. -/
def initState (fs : FileMap) : RunState :=
  ⟨fs, [], [], 0, 0⟩

/-- The call `sorted(data, key=lambda x: x['updated_date']['$date'],
reverse=True)`: stable sort, descending by `updated_date`. -/
def sortDesc (l : List Errata) : List Errata :=
  l.mergeSort (fun a b => decide (b.updated_date ≤ a.updated_date))

/-- Model of `fetch_errata_data`: fetch and parse the feed at `url`, returning the
entries sorted descending by `updated_date`, or `none` on any exception. -/
def fetch_errata_data (feed : String → Option (List Errata)) (url : String) :
    Option (List Errata) :=
  match feed url with
  | none => none
  | some data => some (sortDesc data)

/-- The list comprehension of `run`: entries whose `updated_date` is
strictly greater than the stored watermark. -/
def newErratas (data : List Errata) (ts : Int) : List Errata :=
  data.filter (fun x => decide (ts < x.updated_date))

/-- Model of `get_almalinux_errata_href`: scan `references` in order, return the
`href` of the first one whose `id` equals the entry's `updateinfo_id`,
defaulting to the empty string. -/
def get_almalinux_errata_href (errata : Errata) : String :=
  go errata.references
where
  /-- The `for ref in errata['references']` loop with its `break`. -/
  go : List Reference → String
  | [] => ""
  | ref :: rest =>
    if ref.id == errata.updateinfo_id then ref.href else go rest

/-- Model of `save_last_processed_ts`: write timestamp `ts` to `file_to_write`
joined with `BASEPATH`. -/
def save_last_processed_ts (basepath : String) (fs : FileMap)
    (file_to_write : String) (ts : Int) : FileMap :=
  writeFile fs (joinPath basepath file_to_write) ts

/-- The `for errata in reversed(new_erratas)` loop of `run`: per entry,
attempt the send; on success record it and save the watermark; an exception
from either call is caught and only logged. -/
def sendLoop (env : Env) (dist tsFile : String) :
    List Errata → RunState → RunState
  | [], st => st
  | e :: rest, st =>
    let st1 : RunState := { st with attempted := st.attempted ++ [(dist, e)] }
    if env.sendOk st1.sendCnt then
      let st2 : RunState := { st1 with
        sent := st1.sent ++ [(dist, e)],
        sendCnt := st1.sendCnt + 1 }
      if env.writeOk st2.writeCnt then
        sendLoop env dist tsFile rest { st2 with
          files := save_last_processed_ts env.basepath st2.files tsFile
            e.updated_date,
          writeCnt := st2.writeCnt + 1 }
      else
        sendLoop env dist tsFile rest { st2 with writeCnt := st2.writeCnt + 1 }
    else
      sendLoop env dist tsFile rest { st1 with sendCnt := st1.sendCnt + 1 }

/-- The body of `run` for one distribution `dist`.  `.error` is an uncaught
exception (crash), carrying the state at the point it is raised. -/
def processDist (env : Env) (st : RunState) (dist : String) :
    Except RunState RunState :=
  match DISTRIBUTIONS_ERRATA_URL.find? (fun kv => kv.1 == dist) with
  | none => .ok st
  | some kv =>
    match fetch_errata_data env.feed kv.2 with
    | none => .ok st
    | some data =>
      if data.isEmpty then .ok st
      else
        let tsFile := dist ++ "_last_processed_ts"
        if (lookupFile st.files (joinPath env.cwd tsFile)).isNone then
          if env.writeOk st.writeCnt then
            .ok { st with
              files := save_last_processed_ts env.basepath st.files tsFile
                (data.head!.updated_date),
              writeCnt := st.writeCnt + 1 }
          else
            .error { st with writeCnt := st.writeCnt + 1 }
        else
          match lookupFile st.files (joinPath env.basepath tsFile) with
          | none => .error st
          | some ts =>
            .ok (sendLoop env dist tsFile (newErratas data ts).reverse st)

/-- The `for dist in self.distributions` loop of `run`. -/
def runDists (env : Env) : List String → RunState → Except RunState RunState
  | [], st => .ok st
  | d :: rest, st =>
    match processDist env st d with
    | .ok st1 => runDists env rest st1
    | .error st1 => .error st1

/-- Method `run` of the `ErrataEmailNotifications` class, over durable files `fs`, with fresh
per-run counters and email logs. -/
def run (env : Env) (dists : List String) (fs : FileMap) :
    Except RunState RunState :=
  runDists env dists (initState fs)

/-- Analysis helper: the sublist of `l` whose sends succeed, when the send
attempts are numbered from `c` by the oracle `ok`. -/
def sentOf (ok : Nat → Bool) : Nat → List Errata → List Errata
  | _, [] => []
  | c, e :: rest =>
    if ok c then e :: sentOf ok (c + 1) rest else sentOf ok (c + 1) rest

/-- Analysis helper: the watermark value after writing the timestamps of
`l` in order over the initial value `w`. -/
def foldlUD (l : List Errata) (w : Int) : Int :=
  l.foldl (fun _ e => e.updated_date) w

/-- The ascending list of new entries the send loop of `run` iterates over,
for raw feed content `data` and stored watermark `w`. -/
def newAsc (data : List Errata) (w : Int) : List Errata :=
  (newErratas (sortDesc data) w).reverse

/-- Sample errata entry with timestamp `ts`, for concrete scenarios. -/
def sampleErrata (ts : Int) : Errata :=
  { type := "security", title := "Example: an update", severity := "Important",
    description := "A sample description.", updateinfo_id := "ALSA-2024:0001",
    updated_date := ts,
    references := [⟨"ALSA-2024:0001", "https://errata.almalinux.org/8/ALSA-2024-0001.html"⟩] }

/-- Environment for the concrete scenarios: the almalinux-8 feed returns
entries with timestamps 300, 200 and 100 (newest first), `BASEPATH` and the
working directory both `"base"`, and the given oracles. -/
def sampleEnv (sOk wOk : Nat → Bool) : Env :=
  { feed := fun u =>
      if u = "https://errata.almalinux.org/8/errata.json" then
        some [sampleErrata 300, sampleErrata 200, sampleErrata 100]
      else none,
    basepath := "base", cwd := "base", sendOk := sOk, writeOk := wOk }

/-- Durable state for the concrete scenarios: almalinux-8 watermark 150. -/
def sampleFs : FileMap := [("base/almalinux-8_last_processed_ts", 150)]

/-! ### Basic lemmas about the send loop -/

theorem sendLoop_append (env : Env) (dist tsFile : String)
    (l₁ l₂ : List Errata) (st : RunState) :
    sendLoop env dist tsFile (l₁ ++ l₂) st
      = sendLoop env dist tsFile l₂ (sendLoop env dist tsFile l₁ st) := by
  induction l₁ generalizing st with
  | nil => rfl
  | cons e rest ih =>
    simp only [List.cons_append, sendLoop]
    by_cases hs : env.sendOk st.sendCnt <;> simp only [hs, if_true, if_false]
    · by_cases hw : env.writeOk st.writeCnt <;>
        simp only [hw, if_true, if_false] <;> exact ih _
    · exact ih _

theorem sendLoop_attempted (env : Env) (dist tsFile : String)
    (l : List Errata) (st : RunState) :
    (sendLoop env dist tsFile l st).attempted
      = st.attempted ++ l.map (fun e => (dist, e)) := by
  induction l generalizing st with
  | nil => simp [sendLoop]
  | cons e rest ih =>
    simp only [sendLoop, List.map_cons]
    by_cases hs : env.sendOk st.sendCnt <;> simp only [hs, if_true, if_false]
    · by_cases hw : env.writeOk st.writeCnt <;>
        simp only [hw, if_true, if_false] <;> simp [ih]
    · simp [ih]

theorem sendLoop_sendCnt (env : Env) (dist tsFile : String)
    (l : List Errata) (st : RunState) :
    (sendLoop env dist tsFile l st).sendCnt = st.sendCnt + l.length := by
  induction l generalizing st with
  | nil => simp [sendLoop]
  | cons e rest ih =>
    simp only [sendLoop, List.length_cons]
    by_cases hs : env.sendOk st.sendCnt <;> simp only [hs, if_true, if_false]
    · by_cases hw : env.writeOk st.writeCnt <;>
        simp only [hw, if_true, if_false] <;> simp [ih] <;> omega
    · simp [ih]; omega

theorem sendLoop_sent (env : Env) (dist tsFile : String)
    (l : List Errata) (st : RunState) :
    (sendLoop env dist tsFile l st).sent
      = st.sent ++ (sentOf env.sendOk st.sendCnt l).map (fun e => (dist, e)) := by
  induction l generalizing st with
  | nil => simp [sendLoop, sentOf]
  | cons e rest ih =>
    simp only [sendLoop, sentOf]
    by_cases hs : env.sendOk st.sendCnt <;> simp only [hs, if_true, if_false]
    · by_cases hw : env.writeOk st.writeCnt <;>
        simp only [hw, if_true, if_false] <;> simp [ih]
    · simp [ih]

theorem sendLoop_writeCnt (env : Env) (dist tsFile : String)
    (l : List Errata) (st : RunState) :
    (sendLoop env dist tsFile l st).writeCnt
      = st.writeCnt + (sentOf env.sendOk st.sendCnt l).length := by
  induction l generalizing st with
  | nil => simp [sendLoop, sentOf]
  | cons e rest ih =>
    simp only [sendLoop, sentOf]
    by_cases hs : env.sendOk st.sendCnt <;> simp only [hs, if_true, if_false]
    · by_cases hw : env.writeOk st.writeCnt <;>
        simp only [hw, if_true, if_false] <;> simp [ih] <;> omega
    · simp [ih]

theorem sentOf_all_true (ok : Nat → Bool) (hok : ∀ n, ok n = true) :
    ∀ (c : Nat) (l : List Errata), sentOf ok c l = l := by
  intro c l
  induction l generalizing c with
  | nil => rfl
  | cons e rest ih => simp [sentOf, hok, ih]

theorem sentOf_sublist (ok : Nat → Bool) (c : Nat) (l : List Errata) :
    List.Sublist (sentOf ok c l) l := by
  induction l generalizing c with
  | nil => simp [sentOf]
  | cons e rest ih =>
    simp only [sentOf]
    by_cases h : ok c <;> simp only [h, if_true, if_false]
    · exact (ih (c + 1)).cons₂ e
    · exact (ih (c + 1)).cons e

theorem sentOf_mem (ok : Nat → Bool) (c : Nat) (l : List Errata)
    (e : Errata) (h : e ∈ sentOf ok c l) : e ∈ l :=
  (sentOf_sublist ok c l).mem h

theorem sentOf_get (ok : Nat → Bool) (c : Nat) (l : List Errata)
    (e : Errata) (h : e ∈ sentOf ok c l) :
    ∃ i, ∃ hi : i < l.length, l.get ⟨i, hi⟩ = e ∧ ok (c + i) = true := by
  induction l generalizing c with
  | nil => simp [sentOf] at h
  | cons a rest ih =>
    simp only [sentOf] at h
    by_cases hc : ok c
    · simp only [hc, if_true, List.mem_cons] at h
      rcases h with h | h
      · exact ⟨0, by simp, by simpa using h.symm, by simpa using hc⟩
      · obtain ⟨i, hi, hget, hok⟩ := ih (c + 1) h
        exact ⟨i + 1, by simpa using hi, by simpa using hget,
          by simpa [Nat.add_assoc, Nat.add_comm 1 i] using hok⟩
    · simp only [hc, if_false] at h
      obtain ⟨i, hi, hget, hok⟩ := ih (c + 1) h
      exact ⟨i + 1, by simpa using hi, by simpa using hget,
        by simpa [Nat.add_assoc, Nat.add_comm 1 i] using hok⟩

/-! ### Watermark value lemmas -/

theorem foldlUD_nil (w : Int) : foldlUD [] w = w := rfl

theorem foldlUD_cons (a : Errata) (l : List Errata) (w : Int) :
    foldlUD (a :: l) w = foldlUD l a.updated_date := rfl

theorem foldlUD_init_or_mem (l : List Errata) (w : Int) :
    foldlUD l w = w ∨ ∃ e ∈ l, foldlUD l w = e.updated_date := by
  induction l generalizing w with
  | nil => exact Or.inl rfl
  | cons a rest ih =>
    rw [foldlUD_cons]
    rcases ih a.updated_date with h | ⟨e, he, hh⟩
    · exact Or.inr ⟨a, by simp, h⟩
    · exact Or.inr ⟨e, by simp [he], hh⟩

theorem foldlUD_lb (l : List Errata) (lb : Int)
    (h : ∀ x ∈ l, lb ≤ x.updated_date) :
    ∀ w, lb ≤ w → lb ≤ foldlUD l w := by
  induction l with
  | nil => intro w hw; simpa [foldlUD_nil] using hw
  | cons a rest ih =>
    intro w _
    rw [foldlUD_cons]
    exact ih (fun x hx => h x (by simp [hx])) _ (h a (by simp))

theorem foldlUD_mem_le :
    ∀ (l : List Errata),
    l.Pairwise (fun a b => a.updated_date ≤ b.updated_date) →
    ∀ e ∈ l, ∀ w, e.updated_date ≤ foldlUD l w := by
  intro l
  induction l with
  | nil => intro _ e he; simp at he
  | cons a rest ih =>
    intro hp e he w
    rw [foldlUD_cons]
    rcases List.mem_cons.mp he with rfl | hmem
    · exact foldlUD_lb rest e.updated_date
        (List.pairwise_cons.mp hp).1 _ le_rfl
    · exact ih (List.pairwise_cons.mp hp).2 e hmem _

theorem sendLoop_lookup_wm (env : Env) (dist tsFile : String) :
    ∀ (l : List Errata) (st : RunState) (w : Int),
    lookupFile st.files (joinPath env.basepath tsFile) = some w →
    (∀ k, k < (sentOf env.sendOk st.sendCnt l).length →
      env.writeOk (st.writeCnt + k) = true) →
    lookupFile (sendLoop env dist tsFile l st).files
        (joinPath env.basepath tsFile)
      = some (foldlUD (sentOf env.sendOk st.sendCnt l) w) := by
  intro l
  induction l with
  | nil => intro st w hw _; simpa [sendLoop, sentOf, foldlUD_nil] using hw
  | cons e rest ih =>
    intro st w hw hok
    simp only [sendLoop, sentOf]
    by_cases hs : env.sendOk st.sendCnt = true
    · have hw0 : env.writeOk st.writeCnt = true := by
        have h0 := hok 0 (by simp [sentOf, hs])
        simpa using h0
      simp only [hs, if_pos rfl, hw0, if_true, foldlUD_cons]
      refine ih _ e.updated_date ?_ ?_
      · simp [lookupFile, writeFile, save_last_processed_ts]
      · intro k hk
        dsimp only at hk ⊢
        have h1 : k + 1 < (sentOf env.sendOk st.sendCnt (e :: rest)).length := by
          simp only [sentOf, hs, if_true, List.length_cons]
          omega
        have h2 := hok (k + 1) h1
        rw [Nat.add_assoc, Nat.add_comm 1 k]
        exact h2
    · simp only [if_neg hs]
      refine ih _ w hw ?_
      intro k hk
      dsimp only at hk ⊢
      refine hok k ?_
      simpa [sentOf, if_neg hs] using hk

/-! ### Sorting and new-entry-list lemmas -/

theorem sortDesc_perm (l : List Errata) : List.Perm (sortDesc l) l :=
  List.mergeSort_perm l _

theorem sortDesc_pairwise (l : List Errata) :
    (sortDesc l).Pairwise (fun a b => b.updated_date ≤ a.updated_date) := by
  have h : (sortDesc l).Pairwise
      (fun a b : Errata =>
        decide (b.updated_date ≤ a.updated_date) = true) :=
    List.sorted_mergeSort
      (fun a b c hab hbc => by
        simp only [decide_eq_true_eq] at hab hbc ⊢
        exact le_trans hbc hab)
      (fun a b => by simp [le_total]) l
  exact h.imp (fun hb => by simpa using hb)

theorem sortDesc_pairwise_lt (l : List Errata)
    (hnd : (l.map (fun e => e.updated_date)).Nodup) :
    (sortDesc l).Pairwise (fun a b => b.updated_date < a.updated_date) := by
  have hperm : List.Perm ((sortDesc l).map (fun e => e.updated_date))
      (l.map (fun e => e.updated_date)) := (sortDesc_perm l).map _
  have hnd2 : ((sortDesc l).map (fun e => e.updated_date)).Nodup :=
    hperm.nodup_iff.mpr hnd
  have hne : (sortDesc l).Pairwise
      (fun a b => a.updated_date ≠ b.updated_date) :=
    List.pairwise_map.mp hnd2
  exact ((sortDesc_pairwise l).and hne).imp
    (fun h => lt_of_le_of_ne h.1 (fun hh => h.2 hh.symm))

theorem newAsc_pairwise_le (data : List Errata) (w : Int) :
    (newAsc data w).Pairwise
      (fun a b => a.updated_date ≤ b.updated_date) := by
  have h := List.Pairwise.sublist
    (List.filter_sublist (p := fun x : Errata =>
      decide (w < x.updated_date)) (sortDesc data))
    (sortDesc_pairwise data)
  exact List.pairwise_reverse.mpr h

theorem newAsc_pairwise_lt (data : List Errata) (w : Int)
    (hnd : (data.map (fun e => e.updated_date)).Nodup) :
    (newAsc data w).Pairwise
      (fun a b => a.updated_date < b.updated_date) := by
  have h := List.Pairwise.sublist
    (List.filter_sublist (p := fun x : Errata =>
      decide (w < x.updated_date)) (sortDesc data))
    (sortDesc_pairwise_lt data hnd)
  exact List.pairwise_reverse.mpr h

theorem newAsc_mem (data : List Errata) (w : Int) (x : Errata) :
    x ∈ newAsc data w ↔ x ∈ data ∧ w < x.updated_date := by
  simp [newAsc, newErratas, List.mem_filter, (sortDesc_perm data).mem_iff,
    and_comm]

theorem newAsc_filter (data : List Errata) (w w' : Int) (hww : w ≤ w') :
    newAsc data w'
      = (newAsc data w).filter (fun x => decide (w' < x.updated_date)) := by
  simp only [newAsc, newErratas, ← List.filter_reverse, List.filter_filter]
  refine (List.filter_congr ?_).symm
  intro x _
  by_cases h : w' < x.updated_date
  · simp [h, lt_of_le_of_lt hww h]
  · simp [h]

theorem filter_foldlUD_take :
    ∀ (A : List Errata) (w : Int) (M : Nat),
    A.Pairwise (fun a b => a.updated_date < b.updated_date) →
    (∀ x ∈ A, w < x.updated_date) → M ≤ A.length →
    A.filter (fun x => decide (foldlUD (A.take M) w < x.updated_date))
      = A.drop M := by
  intro A
  induction A with
  | nil => intro w M _ _ _; simp
  | cons a rest ih =>
    intro w M hp hgt hM
    cases M with
    | zero =>
      simp only [List.take_zero, foldlUD_nil, List.drop_zero]
      refine List.filter_eq_self.mpr ?_
      intro x hx
      simpa using hgt x hx
    | succ M =>
      have hp' := List.pairwise_cons.mp hp
      rw [List.take_succ_cons, foldlUD_cons, List.drop_succ_cons]
      have hble : a.updated_date ≤ foldlUD (rest.take M) a.updated_date := by
        rcases foldlUD_init_or_mem (rest.take M) a.updated_date with h | ⟨e, he, hh⟩
        · rw [h]
        · rw [hh]
          exact le_of_lt (hp'.1 e (List.take_subset M rest he))
      rw [List.filter_cons]
      have hfalse : decide (foldlUD (rest.take M) a.updated_date
          < a.updated_date) = false := by
        simp [not_lt.mpr hble]
      rw [hfalse]
      simp only [Bool.false_eq_true, if_false]
      exact ih a.updated_date M hp'.2 hp'.1 (Nat.le_of_succ_le_succ hM)

theorem sortDesc_head_max (data : List Errata) (hd : data ≠ []) :
    (sortDesc data).head!.updated_date
        ∈ data.map (fun e => e.updated_date)
    ∧ ∀ e ∈ data,
        e.updated_date ≤ (sortDesc data).head!.updated_date := by
  have hne : sortDesc data ≠ [] := by
    intro h
    have := (sortDesc_perm data).length_eq
    rw [h] at this
    exact hd (List.eq_nil_of_length_eq_zero this.symm)
  obtain ⟨a, rest, hrest⟩ := List.exists_cons_of_ne_nil hne
  have hpw := sortDesc_pairwise data
  rw [hrest] at hpw
  have hhead : (sortDesc data).head! = a := by rw [hrest]; rfl
  constructor
  · rw [hhead]
    refine List.mem_map.mpr ⟨a, ?_, rfl⟩
    exact (sortDesc_perm data).mem_iff.mp (by rw [hrest]; simp)
  · intro e he
    rw [hhead]
    have he2 : e ∈ a :: rest := by
      rw [← hrest]
      exact (sortDesc_perm data).symm.mem_iff.mp he
    rcases List.mem_cons.mp he2 with rfl | hmem
    · exact le_rfl
    · exact (List.pairwise_cons.mp hpw).1 e hmem

/-! ### Evaluation lemmas for a single-distribution run -/

theorem run_single_read (env : Env) (dist url : String) (data : List Errata)
    (fs : FileMap) (w : Int)
    (hcfg : DISTRIBUTIONS_ERRATA_URL.find? (fun kv => kv.1 == dist)
      = some (dist, url))
    (hfeed : env.feed url = some data)
    (hcwd : env.cwd = env.basepath)
    (hw : lookupFile fs (joinPath env.basepath (dist ++ "_last_processed_ts"))
      = some w) :
    run env [dist] fs
      = .ok (sendLoop env dist (dist ++ "_last_processed_ts")
          (newAsc data w) (initState fs)) := by
  unfold run runDists processDist
  rw [hcfg]
  simp only [fetch_errata_data, hfeed]
  by_cases hemp : (sortDesc data).isEmpty
  · have hnil : sortDesc data = [] := by
      cases h : sortDesc data with
      | nil => rfl
      | cons a l => rw [h] at hemp; simp [List.isEmpty] at hemp
    have : newAsc data w = [] := by simp [newAsc, newErratas, hnil]
    rw [this]
    simp [hemp, sendLoop, runDists]
  · have hfalse : (sortDesc data).isEmpty = false := by
      cases h : (sortDesc data).isEmpty
      · rfl
      · exact absurd h hemp
    rw [hfalse]
    have hlf : lookupFile (initState fs).files
        (joinPath env.basepath (dist ++ "_last_processed_ts")) = some w := hw
    rw [hcwd, hlf]
    simp [newAsc, runDists]

theorem run_single_bootstrap (env : Env) (dist url : String)
    (data : List Errata) (fs : FileMap)
    (hcfg : DISTRIBUTIONS_ERRATA_URL.find? (fun kv => kv.1 == dist)
      = some (dist, url))
    (hfeed : env.feed url = some data)
    (hdata : data ≠ [])
    (hnone : lookupFile fs (joinPath env.cwd (dist ++ "_last_processed_ts"))
      = none)
    (hbw : env.writeOk 0 = true) :
    run env [dist] fs
      = .ok ⟨writeFile fs (joinPath env.basepath (dist ++ "_last_processed_ts"))
          ((sortDesc data).head!.updated_date), [], [], 0, 1⟩ := by
  unfold run runDists processDist
  rw [hcfg]
  simp only [fetch_errata_data, hfeed]
  have hne : sortDesc data ≠ [] := by
    intro h
    have := (sortDesc_perm data).length_eq
    rw [h] at this
    exact hdata (List.eq_nil_of_length_eq_zero this.symm)
  have hfalse : (sortDesc data).isEmpty = false := by
    cases h : sortDesc data with
    | nil => exact absurd h hne
    | cons a l => simp [List.isEmpty]
  rw [hfalse]
  have hlf : lookupFile (initState fs).files
      (joinPath env.cwd (dist ++ "_last_processed_ts")) = none := hnone
  rw [hlf]
  have hbw1 : env.writeOk (initState fs).writeCnt = true := hbw
  simp only [Option.isNone_none, if_true, hbw1]
  simp [runDists, save_last_processed_ts, initState]

/-! ### Auxiliary lemmas for the claims -/

theorem href_go_find (e : Errata) :
    ∀ l : List Reference,
    get_almalinux_errata_href.go e l
      = ((l.find? (fun r => r.id == e.updateinfo_id)).map
          (fun r => r.href)).getD "" := by
  intro l
  induction l with
  | nil => rfl
  | cons r rest ih =>
    by_cases h : (r.id == e.updateinfo_id) = true
    · rw [List.find?_cons_of_pos rest h]
      simp only [get_almalinux_errata_href.go, h, if_true]
      rfl
    · rw [List.find?_cons_of_neg rest h]
      simp only [get_almalinux_errata_href.go, h, if_false]
      exact ih

theorem joinPath_left_injective (d1 d2 f : String) (h : d1 ≠ d2) :
    joinPath d1 f ≠ joinPath d2 f := by
  unfold joinPath
  by_cases h1 : d1 = "" <;> by_cases h2 : d2 = ""
  · exact absurd (h1.trans h2.symm) h
  · rw [if_pos h1, if_neg h2]
    intro heq
    have hl := congrArg String.length heq
    rw [String.length_append, String.length_append] at hl
    have hslash : ("/" : String).length = 1 := rfl
    omega
  · rw [if_neg h1, if_pos h2]
    intro heq
    have hl := congrArg String.length heq
    rw [String.length_append, String.length_append] at hl
    have hslash : ("/" : String).length = 1 := rfl
    omega
  · rw [if_neg h1, if_neg h2]
    intro heq
    have hd := congrArg String.data heq
    rw [String.data_append, String.data_append, String.data_append,
      String.data_append] at hd
    exact h (String.ext
      (List.append_cancel_right (List.append_cancel_right hd)))

theorem sortDesc_sample :
    sortDesc [sampleErrata 300, sampleErrata 200, sampleErrata 100]
      = [sampleErrata 300, sampleErrata 200, sampleErrata 100] :=
  List.mergeSort_of_sorted (by decide)

theorem newAsc_sample :
    newAsc [sampleErrata 300, sampleErrata 200, sampleErrata 100] 150
      = [sampleErrata 200, sampleErrata 300] := by
  rw [newAsc, sortDesc_sample]
  decide

/-- Evaluation of a run over the sample feed and sample store: the send
loop sees exactly the entries 200 and 300, in that order. -/
theorem run_sample (sOk wOk : Nat → Bool) :
    run (sampleEnv sOk wOk) ["almalinux-8"] sampleFs
      = .ok (sendLoop (sampleEnv sOk wOk) "almalinux-8"
          ("almalinux-8" ++ "_last_processed_ts")
          [sampleErrata 200, sampleErrata 300] (initState sampleFs)) := by
  have h := run_single_read (sampleEnv sOk wOk) "almalinux-8"
    "https://errata.almalinux.org/8/errata.json"
    [sampleErrata 300, sampleErrata 200, sampleErrata 100] sampleFs 150
    (by decide) rfl rfl
    (show lookupFile sampleFs
      (joinPath "base" ("almalinux-8" ++ "_last_processed_ts")) = some 150
      by decide)
  rw [h, newAsc_sample]

/-! ### The claims -/

/-- C8: for every entry, the link substituted into the rendered email body
is the `href` of the first reference in the entry's ordered `references`
list whose `id` equals the entry's own id (`updateinfo_id`), and the empty
string when no reference matches. -/
theorem c8_link_resolution (e : Errata) :
    get_almalinux_errata_href e
      = ((e.references.find? (fun r => r.id == e.updateinfo_id)).map
          (fun r => r.href)).getD ""
    ∧ (e.references.find? (fun r => r.id == e.updateinfo_id) = none →
        get_almalinux_errata_href e = "") := by
  have h := href_go_find e e.references
  constructor
  · exact h
  · intro hn
    have h2 := h
    rw [hn] at h2
    simpa using h2

/-- Witness for C8 at a concrete entry. -/
theorem c8_link_resolution_witness :
    get_almalinux_errata_href (sampleErrata 100)
      = (((sampleErrata 100).references.find?
          (fun r => r.id == (sampleErrata 100).updateinfo_id)).map
          (fun r => r.href)).getD ""
    ∧ ((sampleErrata 100).references.find?
          (fun r => r.id == (sampleErrata 100).updateinfo_id) = none →
        get_almalinux_errata_href (sampleErrata 100) = "") :=
  c8_link_resolution (sampleErrata 100)

/-- C7: a distribution identifier missing from `DISTRIBUTIONS_ERRATA_URL`
is skipped with no effect: processing it returns the state unchanged (no
email sent, no watermark file touched, no exception raised), and a run
over any identifier list containing it equals the run with it removed, so
the remaining valid identifiers are still processed. -/
theorem c7_unknown_distribution (env : Env) (dist : String)
    (h : DISTRIBUTIONS_ERRATA_URL.find? (fun kv => kv.1 == dist) = none) :
    (∀ st, processDist env st dist = .ok st)
    ∧ ∀ (pre post : List String) (fs : FileMap),
        run env (pre ++ dist :: post) fs = run env (pre ++ post) fs := by
  have hp : ∀ st, processDist env st dist = .ok st := by
    intro st
    unfold processDist
    rw [h]
  refine ⟨hp, ?_⟩
  intro pre post fs
  unfold run
  have key : ∀ (pre1 : List String) (st : RunState),
      runDists env (pre1 ++ dist :: post) st
        = runDists env (pre1 ++ post) st := by
    intro pre1
    induction pre1 with
    | nil =>
      intro st
      simp only [List.nil_append, runDists]
      rw [hp st]
    | cons d ds ih =>
      intro st
      simp only [List.cons_append, runDists]
      cases processDist env st d with
      | ok st1 => exact ih st1
      | error st1 => rfl
  exact key pre (initState fs)

/-- Witness for C7 with the unknown identifier "fedora" between the two
valid ones. -/
theorem c7_unknown_distribution_witness :
    (∀ st, processDist (sampleEnv (fun _ => true) (fun _ => true)) st
        "fedora" = .ok st)
    ∧ ∀ (pre post : List String) (fs : FileMap),
        run (sampleEnv (fun _ => true) (fun _ => true))
            (pre ++ "fedora" :: post) fs
          = run (sampleEnv (fun _ => true) (fun _ => true)) (pre ++ post) fs :=
  c7_unknown_distribution (sampleEnv (fun _ => true) (fun _ => true))
    "fedora" (by decide)

/-- C2: bootstrap — for a distribution with no existing watermark and a
non-empty successfully fetched entry list, one run persists a watermark
equal to the maximum `updatedAt` over the fetched entries and sends no
email for the distribution. -/
theorem c2_bootstrap (env : Env) (dist url : String) (data : List Errata)
    (fs : FileMap)
    (hcfg : DISTRIBUTIONS_ERRATA_URL.find? (fun kv => kv.1 == dist)
      = some (dist, url))
    (hfeed : env.feed url = some data)
    (hdata : data ≠ [])
    (hnone : lookupFile fs (joinPath env.cwd (dist ++ "_last_processed_ts"))
      = none)
    (hbw : env.writeOk 0 = true) :
    ∃ st, run env [dist] fs = .ok st
      ∧ st.sent = [] ∧ st.attempted = []
      ∧ ∃ v, lookupFile st.files
            (joinPath env.basepath (dist ++ "_last_processed_ts")) = some v
          ∧ v ∈ data.map (fun e => e.updated_date)
          ∧ ∀ e ∈ data, e.updated_date ≤ v := by
  refine ⟨_, run_single_bootstrap env dist url data fs hcfg hfeed hdata
    hnone hbw, rfl, rfl, (sortDesc data).head!.updated_date, ?_,
    (sortDesc_head_max data hdata).1, (sortDesc_head_max data hdata).2⟩
  simp [lookupFile, writeFile]

/-- Witness for C2: empty store, feed with timestamps 100, 200, 300. -/
theorem c2_bootstrap_witness :
    ∃ st, run (sampleEnv (fun _ => true) (fun _ => true)) ["almalinux-8"] []
        = .ok st
      ∧ st.sent = [] ∧ st.attempted = []
      ∧ ∃ v, lookupFile st.files
            (joinPath (sampleEnv (fun _ => true) (fun _ => true)).basepath
              ("almalinux-8" ++ "_last_processed_ts")) = some v
          ∧ v ∈ ([sampleErrata 300, sampleErrata 200,
              sampleErrata 100].map (fun e => e.updated_date))
          ∧ ∀ e ∈ [sampleErrata 300, sampleErrata 200, sampleErrata 100],
              e.updated_date ≤ v :=
  c2_bootstrap (sampleEnv (fun _ => true) (fun _ => true)) "almalinux-8"
    "https://errata.almalinux.org/8/errata.json"
    [sampleErrata 300, sampleErrata 200, sampleErrata 100] []
    (by decide) rfl (by decide) rfl rfl

/-- C9: the bootstrap decision tests the bare relative path (resolved
against the working directory) while read and write use the path joined
with `BASEPATH`; the two differ whenever the directories differ, so a
watermark present only at the `BASEPATH` path is invisible to the
existence check: the run re-bootstraps, overwriting the watermark with the
newest fetched entry's timestamp and sending nothing. -/
theorem c9_cwd_mismatch_rebootstrap (env : Env) (dist url : String)
    (data : List Errata) (fs : FileMap) (w : Int)
    (hcfg : DISTRIBUTIONS_ERRATA_URL.find? (fun kv => kv.1 == dist)
      = some (dist, url))
    (hfeed : env.feed url = some data)
    (hdata : data ≠ [])
    (hbw : env.writeOk 0 = true)
    (hvisible : lookupFile fs
      (joinPath env.basepath (dist ++ "_last_processed_ts")) = some w)
    (hinvisible : lookupFile fs
      (joinPath env.cwd (dist ++ "_last_processed_ts")) = none) :
    (∀ d1 d2 f : String, d1 ≠ d2 → joinPath d1 f ≠ joinPath d2 f)
    ∧ ∃ st, run env [dist] fs = .ok st
      ∧ st.sent = [] ∧ st.attempted = []
      ∧ ∃ v, lookupFile st.files
            (joinPath env.basepath (dist ++ "_last_processed_ts")) = some v
          ∧ v ∈ data.map (fun e => e.updated_date)
          ∧ ∀ e ∈ data, e.updated_date ≤ v := by
  refine ⟨joinPath_left_injective, _,
    run_single_bootstrap env dist url data fs hcfg hfeed hdata hinvisible
      hbw, rfl, rfl, (sortDesc data).head!.updated_date, ?_,
    (sortDesc_head_max data hdata).1, (sortDesc_head_max data hdata).2⟩
  simp [lookupFile, writeFile]

/-- Witness for C9: working directory "elsewhere", `BASEPATH` "base", and
a watermark stored only under "base". -/
theorem c9_cwd_mismatch_rebootstrap_witness :
    (∀ d1 d2 f : String, d1 ≠ d2 → joinPath d1 f ≠ joinPath d2 f)
    ∧ ∃ st, run { sampleEnv (fun _ => true) (fun _ => true) with
          cwd := "elsewhere" } ["almalinux-8"] sampleFs = .ok st
      ∧ st.sent = [] ∧ st.attempted = []
      ∧ ∃ v, lookupFile st.files
            (joinPath "base" ("almalinux-8" ++ "_last_processed_ts"))
            = some v
          ∧ v ∈ ([sampleErrata 300, sampleErrata 200,
              sampleErrata 100].map (fun e => e.updated_date))
          ∧ ∀ e ∈ [sampleErrata 300, sampleErrata 200, sampleErrata 100],
              e.updated_date ≤ v := by
  exact c9_cwd_mismatch_rebootstrap
    { sampleEnv (fun _ => true) (fun _ => true) with cwd := "elsewhere" }
    "almalinux-8" "https://errata.almalinux.org/8/errata.json"
    [sampleErrata 300, sampleErrata 200, sampleErrata 100] sampleFs 150
    (by decide) rfl (by decide) rfl (by decide) (by decide)

/-- C6: with feed timestamps 100, 200 and 300 and existing watermark 150,
exactly the entries 200 and 300 are processed, in ascending order (200
before 300); the final watermark is 300 when both sends succeed, and 200
when the first send succeeds but the second fails. -/
theorem c6_concrete_scenario :
    (∃ st, run (sampleEnv (fun _ => true) (fun _ => true)) ["almalinux-8"]
        sampleFs = .ok st
      ∧ st.attempted = [("almalinux-8", sampleErrata 200),
          ("almalinux-8", sampleErrata 300)]
      ∧ st.sent = st.attempted
      ∧ lookupFile st.files "base/almalinux-8_last_processed_ts"
          = some 300)
    ∧ (∃ st, run (sampleEnv (fun n => n == 0) (fun _ => true))
        ["almalinux-8"] sampleFs = .ok st
      ∧ st.attempted = [("almalinux-8", sampleErrata 200),
          ("almalinux-8", sampleErrata 300)]
      ∧ st.sent = [("almalinux-8", sampleErrata 200)]
      ∧ lookupFile st.files "base/almalinux-8_last_processed_ts"
          = some 200) := by
  constructor
  · exact ⟨_, run_sample (fun _ => true) (fun _ => true), by decide,
      by decide, by decide⟩
  · exact ⟨_, run_sample (fun n => n == 0) (fun _ => true), by decide,
      by decide, by decide⟩

/-- C4: within a single run for one distribution, with pairwise-distinct
`updatedAt` values, the new entries are handed to the mailer — and the
successfully delivered ones in particular — in strictly ascending
`updatedAt` order, although the fetched list is sorted newest-first. -/
theorem c4_ascending_delivery (env : Env) (dist url : String)
    (data : List Errata) (fs : FileMap) (w : Int)
    (hcfg : DISTRIBUTIONS_ERRATA_URL.find? (fun kv => kv.1 == dist)
      = some (dist, url))
    (hfeed : env.feed url = some data)
    (hcwd : env.cwd = env.basepath)
    (hw : lookupFile fs (joinPath env.basepath (dist ++ "_last_processed_ts"))
      = some w)
    (hnd : (data.map (fun e => e.updated_date)).Nodup) :
    ∃ st, run env [dist] fs = .ok st
      ∧ List.Pairwise (fun a b => a < b)
          (st.attempted.map (fun p => p.2.updated_date))
      ∧ List.Pairwise (fun a b => a < b)
          (st.sent.map (fun p => p.2.updated_date)) := by
  refine ⟨_, run_single_read env dist url data fs w hcfg hfeed hcwd hw,
    ?_, ?_⟩
  · rw [sendLoop_attempted]
    simp only [initState, List.nil_append, List.map_map]
    exact List.pairwise_map.mpr
      ((newAsc_pairwise_lt data w hnd).imp (fun h => h))
  · rw [sendLoop_sent]
    simp only [initState, List.nil_append, List.map_map]
    exact List.pairwise_map.mpr
      ((List.Pairwise.sublist (sentOf_sublist env.sendOk 0 (newAsc data w))
        (newAsc_pairwise_lt data w hnd)).imp (fun h => h))

/-- Witness for C4 over the sample feed, with the second send failing. -/
theorem c4_ascending_delivery_witness :
    ∃ st, run (sampleEnv (fun n => n == 0) (fun _ => true)) ["almalinux-8"]
        sampleFs = .ok st
      ∧ List.Pairwise (fun a b => a < b)
          (st.attempted.map (fun p => p.2.updated_date))
      ∧ List.Pairwise (fun a b => a < b)
          (st.sent.map (fun p => p.2.updated_date)) := by
  exact c4_ascending_delivery (sampleEnv (fun n => n == 0) (fun _ => true))
    "almalinux-8" "https://errata.almalinux.org/8/errata.json"
    [sampleErrata 300, sampleErrata 200, sampleErrata 100] sampleFs 150
    (by decide) rfl rfl
    (show lookupFile sampleFs
      (joinPath "base" ("almalinux-8" ++ "_last_processed_ts")) = some 150
      by decide)
    (by decide)

theorem newAsc_nil_of_le (data : List Errata) (w : Int)
    (h : ∀ x ∈ data, x.updated_date ≤ w) : newAsc data w = [] := by
  refine List.eq_nil_iff_forall_not_mem.mpr ?_
  intro x hx
  rcases (newAsc_mem data w x).mp hx with ⟨hxd, hlt⟩
  exact absurd hlt (not_lt.mpr (h x hxd))

theorem run_single_skip_empty (env : Env) (dist url : String) (fs : FileMap)
    (hcfg : DISTRIBUTIONS_ERRATA_URL.find? (fun kv => kv.1 == dist)
      = some (dist, url))
    (hfeed : env.feed url = some []) :
    run env [dist] fs = .ok (initState fs) := by
  unfold run runDists processDist
  rw [hcfg]
  simp only [fetch_errata_data, hfeed]
  rw [show sortDesc ([] : List Errata) = [] from List.mergeSort_nil]
  simp [runDists]

/-- C5: idempotence — for a configured distribution, running the pipeline
twice in succession with an unchanged feed and all sends and watermark
writes succeeding sends zero emails on the second run. -/
theorem c5_idempotent (env : Env) (dist url : String) (data : List Errata)
    (fs : FileMap)
    (hcfg : DISTRIBUTIONS_ERRATA_URL.find? (fun kv => kv.1 == dist)
      = some (dist, url))
    (hfeed : env.feed url = some data)
    (hcwd : env.cwd = env.basepath)
    (hsend : ∀ n, env.sendOk n = true)
    (hwrite : ∀ n, env.writeOk n = true) :
    ∃ st1 st2, run env [dist] fs = .ok st1
      ∧ run env [dist] st1.files = .ok st2
      ∧ st2.sent = [] := by
  cases hl : lookupFile fs (joinPath env.basepath
      (dist ++ "_last_processed_ts")) with
  | some w0 =>
    have hlook : lookupFile (sendLoop env dist
        (dist ++ "_last_processed_ts") (newAsc data w0)
        (initState fs)).files
        (joinPath env.basepath (dist ++ "_last_processed_ts"))
        = some (foldlUD (newAsc data w0) w0) := by
      have h := sendLoop_lookup_wm env dist (dist ++ "_last_processed_ts")
        (newAsc data w0) (initState fs) w0 hl
        (fun k _ => hwrite _)
      rw [sentOf_all_true env.sendOk hsend] at h
      exact h
    have hw1 : ∀ x ∈ data,
        x.updated_date ≤ foldlUD (newAsc data w0) w0 := by
      intro x hx
      by_cases hgt : w0 < x.updated_date
      · exact foldlUD_mem_le (newAsc data w0) (newAsc_pairwise_le data w0)
          x ((newAsc_mem data w0 x).mpr ⟨hx, hgt⟩) w0
      · have hle : x.updated_date ≤ w0 := not_lt.mp hgt
        rcases foldlUD_init_or_mem (newAsc data w0) w0 with h | ⟨e, he, hh⟩
        · rw [h]; exact hle
        · rw [hh]
          exact le_of_lt (lt_of_le_of_lt hle
            ((newAsc_mem data w0 e).mp he).2)
    refine ⟨_, _, run_single_read env dist url data fs w0 hcfg hfeed hcwd hl,
      run_single_read env dist url data _ _ hcfg hfeed hcwd hlook, ?_⟩
    rw [newAsc_nil_of_le data _ hw1]
    rfl
  | none =>
    by_cases hd : data = []
    · subst hd
      exact ⟨_, _, run_single_skip_empty env dist url fs hcfg hfeed,
        run_single_skip_empty env dist url _ hcfg hfeed, rfl⟩
    · have hboot := run_single_bootstrap env dist url data fs hcfg hfeed hd
        (by rw [hcwd]; exact hl) (hwrite 0)
      have hlook : lookupFile (writeFile fs
          (joinPath env.basepath (dist ++ "_last_processed_ts"))
          ((sortDesc data).head!.updated_date))
          (joinPath env.basepath (dist ++ "_last_processed_ts"))
          = some ((sortDesc data).head!.updated_date) := by
        simp [lookupFile, writeFile]
      refine ⟨_, _, hboot,
        run_single_read env dist url data _ _ hcfg hfeed hcwd hlook, ?_⟩
      rw [newAsc_nil_of_le data _ (sortDesc_head_max data hd).2]
      rfl

/-- Witness for C5 over the sample feed and sample store. -/
theorem c5_idempotent_witness :
    ∃ st1 st2, run (sampleEnv (fun _ => true) (fun _ => true))
        ["almalinux-8"] sampleFs = .ok st1
      ∧ run (sampleEnv (fun _ => true) (fun _ => true)) ["almalinux-8"]
          st1.files = .ok st2
      ∧ st2.sent = [] := by
  exact c5_idempotent (sampleEnv (fun _ => true) (fun _ => true))
    "almalinux-8" "https://errata.almalinux.org/8/errata.json"
    [sampleErrata 300, sampleErrata 200, sampleErrata 100] sampleFs
    (by decide) rfl rfl (fun n => rfl) (fun n => rfl)

/-- C1: with a readable watermark and all watermark writes succeeding:
(a) after a full run, every entry of the distribution whose send succeeded
has the persisted watermark at least its `updatedAt`; and (b) for
pairwise-distinct `updatedAt` values and successful sends, a run that
crashes after `M` of the `N` new entries are processed leaves exactly the
durable state of the first `M` loop iterations, and the next full run
sends exactly the remaining `N - M` entries in order — across the two runs
every new entry is emailed exactly once, none resent, none skipped. -/
theorem c1_watermark_resume (env : Env) (dist url : String)
    (data : List Errata) (fs : FileMap) (w0 : Int) (M : Nat)
    (hcfg : DISTRIBUTIONS_ERRATA_URL.find? (fun kv => kv.1 == dist)
      = some (dist, url))
    (hfeed : env.feed url = some data)
    (hcwd : env.cwd = env.basepath)
    (hwrite : ∀ n, env.writeOk n = true)
    (hw0 : lookupFile fs (joinPath env.basepath
      (dist ++ "_last_processed_ts")) = some w0)
    (hnd : (data.map (fun e => e.updated_date)).Nodup)
    (hM : M ≤ (newAsc data w0).length) :
    let tsFile := dist ++ "_last_processed_ts"
    let P := joinPath env.basepath tsFile
    let A := newAsc data w0
    let envT : Env := { env with sendOk := fun _ => true }
    let crashed := sendLoop envT dist tsFile (A.take M) (initState fs)
    (∃ st1, run env [dist] fs = .ok st1
      ∧ ∀ E, (dist, E) ∈ st1.sent →
          ∃ v, lookupFile st1.files P = some v ∧ E.updated_date ≤ v)
    ∧ sendLoop envT dist tsFile A (initState fs)
        = sendLoop envT dist tsFile (A.drop M) crashed
    ∧ crashed.sent = (A.take M).map (fun e => (dist, e))
    ∧ ∃ st2, run envT [dist] crashed.files = .ok st2
        ∧ st2.sent = (A.drop M).map (fun e => (dist, e))
        ∧ crashed.sent ++ st2.sent = A.map (fun e => (dist, e)) := by
  intro tsFile P A envT crashed
  have hsendT : ∀ n, envT.sendOk n = true := fun _ => rfl
  have hwT : ∀ n, envT.writeOk n = true := fun n => hwrite n
  have hAmem : ∀ x ∈ A, w0 < x.updated_date :=
    fun x hx => ((newAsc_mem data w0 x).mp hx).2
  refine ⟨?_, ?_, ?_, ?_⟩
  · -- (a) watermark dominates every successfully sent entry
    refine ⟨_, run_single_read env dist url data fs w0 hcfg hfeed hcwd hw0,
      ?_⟩
    intro E hE
    rw [sendLoop_sent] at hE
    simp only [initState, List.nil_append] at hE
    obtain ⟨e, he, heq⟩ := List.mem_map.mp hE
    obtain rfl : e = E := ((Prod.mk.injEq _ _ _ _).mp heq).2
    refine ⟨foldlUD (sentOf env.sendOk 0 (newAsc data w0)) w0, ?_, ?_⟩
    · exact sendLoop_lookup_wm env dist (dist ++ "_last_processed_ts")
        (newAsc data w0) (initState fs) w0 hw0 (fun k _ => hwrite _)
    · exact foldlUD_mem_le _
        (List.Pairwise.sublist (sentOf_sublist _ _ _)
          (newAsc_pairwise_le data w0)) e he w0
  · -- (b) the crashed state is the mid-run state of the full run
    show sendLoop envT dist tsFile A (initState fs)
      = sendLoop envT dist tsFile (A.drop M)
          (sendLoop envT dist tsFile (A.take M) (initState fs))
    conv_lhs => rw [← List.take_append_drop M A]
    rw [sendLoop_append]
  · -- the crashed run sent exactly the first M new entries
    show (sendLoop envT dist tsFile (A.take M) (initState fs)).sent
      = (A.take M).map (fun e => (dist, e))
    rw [sendLoop_sent]
    simp only [initState, List.nil_append]
    rw [sentOf_all_true envT.sendOk hsendT]
  · -- the next full run resumes exactly at entry M+1
    have hcr_lookup : lookupFile crashed.files P
        = some (foldlUD (A.take M) w0) := by
      have h := sendLoop_lookup_wm envT dist tsFile (A.take M)
        (initState fs) w0 hw0 (fun k _ => hwT _)
      rw [sentOf_all_true envT.sendOk hsendT] at h
      exact h
    have hw0w1 : w0 ≤ foldlUD (A.take M) w0 := by
      rcases foldlUD_init_or_mem (A.take M) w0 with h | ⟨e, he, hh⟩
      · rw [h]
      · rw [hh]
        exact le_of_lt (hAmem e (List.take_subset M A he))
    have hdrop : newAsc data (foldlUD (A.take M) w0) = A.drop M := by
      rw [newAsc_filter data w0 _ hw0w1]
      exact filter_foldlUD_take A w0 M (newAsc_pairwise_lt data w0 hnd)
        hAmem hM
    have hrun2 := run_single_read envT dist url data crashed.files
      (foldlUD (A.take M) w0) hcfg hfeed hcwd hcr_lookup
    rw [hdrop] at hrun2
    refine ⟨_, hrun2, ?_, ?_⟩
    · rw [sendLoop_sent]
      simp only [initState, List.nil_append]
      rw [sentOf_all_true envT.sendOk hsendT]
    · show (sendLoop envT dist tsFile (A.take M) (initState fs)).sent
        ++ (sendLoop envT dist tsFile (A.drop M)
              (initState crashed.files)).sent
        = A.map (fun e => (dist, e))
      rw [sendLoop_sent, sendLoop_sent]
      simp only [initState, List.nil_append]
      rw [sentOf_all_true envT.sendOk hsendT,
        sentOf_all_true envT.sendOk hsendT]
      rw [← List.map_append, List.take_append_drop]

/-- Witness for C1 over the sample feed, with `M = 1`: the crashed run
sends entry 200 only; the resumed run sends exactly entry 300. -/
theorem c1_watermark_resume_witness :
    let env := sampleEnv (fun n => n == 0) (fun _ => true)
    let tsFile := "almalinux-8" ++ "_last_processed_ts"
    let P := joinPath "base" tsFile
    let A := newAsc [sampleErrata 300, sampleErrata 200, sampleErrata 100]
      150
    let envT : Env := { env with sendOk := fun _ => true }
    let crashed := sendLoop envT "almalinux-8" tsFile (A.take 1)
      (initState sampleFs)
    (∃ st1, run env ["almalinux-8"] sampleFs = .ok st1
      ∧ ∀ E, ("almalinux-8", E) ∈ st1.sent →
          ∃ v, lookupFile st1.files P = some v ∧ E.updated_date ≤ v)
    ∧ sendLoop envT "almalinux-8" tsFile A (initState sampleFs)
        = sendLoop envT "almalinux-8" tsFile (A.drop 1) crashed
    ∧ crashed.sent = (A.take 1).map (fun e => ("almalinux-8", e))
    ∧ ∃ st2, run envT ["almalinux-8"] crashed.files = .ok st2
        ∧ st2.sent = (A.drop 1).map (fun e => ("almalinux-8", e))
        ∧ crashed.sent ++ st2.sent
            = A.map (fun e => ("almalinux-8", e)) := by
  exact c1_watermark_resume (sampleEnv (fun n => n == 0) (fun _ => true))
    "almalinux-8" "https://errata.almalinux.org/8/errata.json"
    [sampleErrata 300, sampleErrata 200, sampleErrata 100] sampleFs 150 1
    (by decide) rfl rfl (fun n => rfl)
    (show lookupFile sampleFs
      (joinPath "base" ("almalinux-8" ++ "_last_processed_ts")) = some 150
      by decide)
    (by decide)
    (by rw [newAsc_sample]; decide)

/-- C3 counterexample: feed values 100/200/300, watermark 150; the send of
entry 200 (the first new entry) fails while the send of entry 300
succeeds.  The watermark ends at 300 — past the failed entry — and the
next full run over the unchanged feed attempts nothing: entry 200 is never
retried, refuting the claim's "E is retried on the next full run". -/
theorem c3_counterexample :
    ∃ st1 st2,
      run (sampleEnv (fun n => n != 0) (fun _ => true)) ["almalinux-8"]
          sampleFs = .ok st1
      ∧ st1.attempted = [("almalinux-8", sampleErrata 200),
          ("almalinux-8", sampleErrata 300)]
      ∧ st1.sent = [("almalinux-8", sampleErrata 300)]
      ∧ lookupFile st1.files "base/almalinux-8_last_processed_ts"
          = some 300
      ∧ run (sampleEnv (fun _ => true) (fun _ => true)) ["almalinux-8"]
          st1.files = .ok st2
      ∧ st2.attempted = []
      ∧ ¬ ("almalinux-8", sampleErrata 200) ∈ st2.attempted
      ∧ ¬ ("almalinux-8", sampleErrata 200) ∈ st2.sent := by
  have hnil : newAsc [sampleErrata 300, sampleErrata 200, sampleErrata 100]
      (300 : Int) = [] := by
    rw [newAsc, sortDesc_sample]
    decide
  have hrun2 := run_single_read (sampleEnv (fun _ => true) (fun _ => true))
    "almalinux-8" "https://errata.almalinux.org/8/errata.json"
    [sampleErrata 300, sampleErrata 200, sampleErrata 100]
    (sendLoop (sampleEnv (fun n => n != 0) (fun _ => true)) "almalinux-8"
      ("almalinux-8" ++ "_last_processed_ts")
      [sampleErrata 200, sampleErrata 300] (initState sampleFs)).files 300
    (by decide) rfl rfl (by decide)
  rw [hnil] at hrun2
  exact ⟨_, _, run_sample _ _, by decide, by decide, by decide, hrun2,
    rfl, by decide, by decide⟩

/-- C3 amended: when the send of new entry `E` fails, the run does not
crash, every new entry — in particular every later one — is still
attempted, no email for `E` is recorded, and the watermark is never set to
`updatedAt(E)`; `E` is retried on the next full run under the additional
proviso that no entry after `E` in the same run has a successful send
(without the proviso the retry fails, see the counterexample). -/
theorem c3_amended (env : Env) (dist url : String)
    (data : List Errata) (fs : FileMap) (w0 : Int)
    (hcfg : DISTRIBUTIONS_ERRATA_URL.find? (fun kv => kv.1 == dist)
      = some (dist, url))
    (hfeed : env.feed url = some data)
    (hcwd : env.cwd = env.basepath)
    (hwrite : ∀ n, env.writeOk n = true)
    (hw0 : lookupFile fs (joinPath env.basepath
      (dist ++ "_last_processed_ts")) = some w0)
    (hnd : (data.map (fun e => e.updated_date)).Nodup) :
    let tsFile := dist ++ "_last_processed_ts"
    let P := joinPath env.basepath tsFile
    let A := newAsc data w0
    ∃ st1, run env [dist] fs = .ok st1
    ∧ st1.attempted = A.map (fun e => (dist, e))
    ∧ ∀ i, (hi : i < A.length) → env.sendOk i = false →
        ((dist, A.get ⟨i, hi⟩) ∉ st1.sent
        ∧ lookupFile st1.files P ≠ some (A.get ⟨i, hi⟩).updated_date
        ∧ ((∀ j, i < j → j < A.length → env.sendOk j = false) →
            ∀ sOk2 wOk2 : Nat → Bool,
            ∃ st2, run { env with sendOk := sOk2, writeOk := wOk2 } [dist]
                st1.files = .ok st2
              ∧ (dist, A.get ⟨i, hi⟩) ∈ st2.attempted)) := by
  intro tsFile P A
  have hApw : A.Pairwise (fun a b => a.updated_date < b.updated_date) :=
    newAsc_pairwise_lt data w0 hnd
  have hAmem : ∀ x ∈ A, w0 < x.updated_date :=
    fun x hx => ((newAsc_mem data w0 x).mp hx).2
  have hAmapnd : (A.map (fun e => e.updated_date)).Nodup :=
    (List.pairwise_map.mpr hApw).imp (fun h => ne_of_lt h)
  have hAnodup : A.Nodup :=
    hApw.imp (fun h heq => absurd (heq ▸ h) (lt_irrefl _))
  refine ⟨_, run_single_read env dist url data fs w0 hcfg hfeed hcwd hw0,
    ?_, ?_⟩
  · rw [sendLoop_attempted]
    simp [initState]
  intro i hi hfail
  have hlook : lookupFile (sendLoop env dist tsFile A
      (initState fs)).files P
      = some (foldlUD (sentOf env.sendOk 0 A) w0) :=
    sendLoop_lookup_wm env dist tsFile A (initState fs) w0 hw0
      (fun k _ => hwrite _)
  have hnotin : A.get ⟨i, hi⟩ ∉ sentOf env.sendOk 0 A := by
    intro hmem
    obtain ⟨j, hj, hget, hok⟩ := sentOf_get env.sendOk 0 A _ hmem
    have hfin : (⟨j, hj⟩ : Fin A.length) = ⟨i, hi⟩ :=
      (hAnodup.get_inj_iff).mp hget
    have hj_eq : j = i := by
      simpa using congrArg (fun x : Fin A.length => x.1) hfin
    rw [hj_eq] at hok
    simp only [Nat.zero_add] at hok
    rw [hok] at hfail
    exact Bool.true_eq_false.mp hfail
  refine ⟨?_, ?_, ?_⟩
  · -- no email recorded for the failed entry
    intro hmem
    rw [sendLoop_sent] at hmem
    simp only [initState, List.nil_append] at hmem
    obtain ⟨e, he, heq⟩ := List.mem_map.mp hmem
    obtain rfl : e = A.get ⟨i, hi⟩ := ((Prod.mk.injEq _ _ _ _).mp heq).2
    exact hnotin he
  · -- the watermark is never set to the failed entry's timestamp
    rw [hlook]
    intro heq
    have hval : foldlUD (sentOf env.sendOk 0 A) w0
        = (A.get ⟨i, hi⟩).updated_date := Option.some.inj heq
    rcases foldlUD_init_or_mem (sentOf env.sendOk 0 A) w0 with h | ⟨e, he, hh⟩
    · rw [h] at hval
      exact absurd (hval ▸ hAmem _ (A.get_mem i hi)) (lt_irrefl _)
    · rw [hh] at hval
      have he' : e = A.get ⟨i, hi⟩ :=
        List.inj_on_of_nodup_map hAmapnd
          (sentOf_mem env.sendOk 0 A e he) (A.get_mem i hi) hval
      rw [he'] at he
      exact hnotin he
  · -- retried on the next run when no later send succeeds
    intro hlater sOk2 wOk2
    have hw1lt : foldlUD (sentOf env.sendOk 0 A) w0
        < (A.get ⟨i, hi⟩).updated_date := by
      rcases foldlUD_init_or_mem (sentOf env.sendOk 0 A) w0
        with h | ⟨e, he, hh⟩
      · rw [h]
        exact hAmem _ (A.get_mem i hi)
      · rw [hh]
        obtain ⟨j, hj, hget, hok⟩ := sentOf_get env.sendOk 0 A _ he
        simp only [Nat.zero_add] at hok
        have hj_ne : j ≠ i := by
          intro hji
          rw [hji] at hok
          rw [hok] at hfail
          exact Bool.true_eq_false.mp hfail
        have hj_not_later : ¬ (i < j) := by
          intro hij
          have hlj := hlater j hij hj
          rw [hlj] at hok
          exact Bool.false_ne_true hok
        have hj_lt : j < i := by omega
        have := List.pairwise_iff_get.mp hApw ⟨j, hj⟩ ⟨i, hi⟩ hj_lt
        rw [hget] at this
        exact this
    have hEmem2 : A.get ⟨i, hi⟩ ∈ newAsc data
        (foldlUD (sentOf env.sendOk 0 A) w0) :=
      (newAsc_mem data _ _).mpr
        ⟨((newAsc_mem data w0 _).mp (A.get_mem i hi)).1, hw1lt⟩
    have hrun2 := run_single_read
      { env with sendOk := sOk2, writeOk := wOk2 } dist url data
      (sendLoop env dist tsFile A (initState fs)).files
      (foldlUD (sentOf env.sendOk 0 A) w0) hcfg hfeed hcwd hlook
    refine ⟨_, hrun2, ?_⟩
    rw [sendLoop_attempted]
    simp only [initState, List.nil_append]
    exact List.mem_map.mpr ⟨_, hEmem2, rfl⟩

/-- Witness for the amended C3 over the sample feed, with the first send
failing and the second succeeding. -/
theorem c3_amended_witness :
    let tsFile := "almalinux-8" ++ "_last_processed_ts"
    let P := joinPath "base" tsFile
    let A := newAsc [sampleErrata 300, sampleErrata 200, sampleErrata 100]
      150
    ∃ st1, run (sampleEnv (fun n => n != 0) (fun _ => true))
        ["almalinux-8"] sampleFs = .ok st1
    ∧ st1.attempted = A.map (fun e => ("almalinux-8", e))
    ∧ ∀ i, (hi : i < A.length) →
        (sampleEnv (fun n => n != 0) (fun _ => true)).sendOk i = false →
        (("almalinux-8", A.get ⟨i, hi⟩) ∉ st1.sent
        ∧ lookupFile st1.files P ≠ some (A.get ⟨i, hi⟩).updated_date
        ∧ ((∀ j, i < j → j < A.length →
              (sampleEnv (fun n => n != 0) (fun _ => true)).sendOk j
                = false) →
            ∀ sOk2 wOk2 : Nat → Bool,
            ∃ st2, run { sampleEnv (fun n => n != 0) (fun _ => true) with
                sendOk := sOk2, writeOk := wOk2 } ["almalinux-8"]
                st1.files = .ok st2
              ∧ ("almalinux-8", A.get ⟨i, hi⟩) ∈ st2.attempted)) := by
  exact c3_amended (sampleEnv (fun n => n != 0) (fun _ => true))
    "almalinux-8" "https://errata.almalinux.org/8/errata.json"
    [sampleErrata 300, sampleErrata 200, sampleErrata 100] sampleFs 150
    (by decide) rfl rfl (fun n => rfl)
    (show lookupFile sampleFs
      (joinPath "base" ("almalinux-8" ++ "_last_processed_ts")) = some 150
      by decide)
    (by decide)

theorem sendLoop_single_write_fail (env : Env) (dist tsFile : String)
    (e : Errata) (st : RunState)
    (hs : env.sendOk st.sendCnt = true)
    (hw : env.writeOk st.writeCnt = false) :
    sendLoop env dist tsFile [e] st
      = { st with
          sent := st.sent ++ [(dist, e)],
          attempted := st.attempted ++ [(dist, e)],
          sendCnt := st.sendCnt + 1,
          writeCnt := st.writeCnt + 1 } := by
  simp only [sendLoop, hs, hw]
  rfl

/-- C10 counterexample: feed values 100/200/300, watermark 150, both sends
succeed; the watermark write after entry 200 raises while the one after
entry 300 succeeds.  The watermark still ends at 300, and the next full
run sends nothing: no duplicate notification for entry 200 is produced,
refuting the claim's "the already-delivered entry is sent again on the
next run". -/
theorem c10_counterexample :
    ∃ st1 st2,
      run (sampleEnv (fun _ => true) (fun n => n != 0)) ["almalinux-8"]
          sampleFs = .ok st1
      ∧ st1.sent = [("almalinux-8", sampleErrata 200),
          ("almalinux-8", sampleErrata 300)]
      ∧ (sampleEnv (fun _ => true) (fun n => n != 0)).writeOk 0 = false
      ∧ lookupFile st1.files "base/almalinux-8_last_processed_ts"
          = some 300
      ∧ run (sampleEnv (fun _ => true) (fun _ => true)) ["almalinux-8"]
          st1.files = .ok st2
      ∧ st2.sent = []
      ∧ ¬ ("almalinux-8", sampleErrata 200) ∈ st2.sent := by
  have hnil : newAsc [sampleErrata 300, sampleErrata 200, sampleErrata 100]
      (300 : Int) = [] := by
    rw [newAsc, sortDesc_sample]
    decide
  have hrun2 := run_single_read (sampleEnv (fun _ => true) (fun _ => true))
    "almalinux-8" "https://errata.almalinux.org/8/errata.json"
    [sampleErrata 300, sampleErrata 200, sampleErrata 100]
    (sendLoop (sampleEnv (fun _ => true) (fun n => n != 0)) "almalinux-8"
      ("almalinux-8" ++ "_last_processed_ts")
      [sampleErrata 200, sampleErrata 300] (initState sampleFs)).files 300
    (by decide) rfl rfl (by decide)
  rw [hnil] at hrun2
  exact ⟨_, _, run_sample _ _, by decide, by decide, by decide, hrun2,
    rfl, by decide⟩

/-- C10 amended: when the send of a new entry succeeds but the subsequent
watermark write raises, the exception is caught by the same handler as a
send failure: the entry's loop iteration leaves the stored files
unchanged while the entry is recorded as sent, and all later entries are
still attempted.  The entry is delivered again on the next run — a
duplicate — under the additional proviso that no later entry of the same
run advances the watermark past it, in particular when it is the last new
entry (without the proviso the resend fails, see the counterexample). -/
theorem c10_amended (env : Env) (dist url : String) (data : List Errata)
    (fs : FileMap) (w0 : Int)
    (hcfg : DISTRIBUTIONS_ERRATA_URL.find? (fun kv => kv.1 == dist)
      = some (dist, url))
    (hfeed : env.feed url = some data)
    (hcwd : env.cwd = env.basepath)
    (hw0 : lookupFile fs (joinPath env.basepath
      (dist ++ "_last_processed_ts")) = some w0)
    (hnd : (data.map (fun e => e.updated_date)).Nodup)
    (hsend : ∀ n, env.sendOk n = true) :
    let tsFile := dist ++ "_last_processed_ts"
    let P := joinPath env.basepath tsFile
    let A := newAsc data w0
    (∀ i, (hi : i < A.length) → env.writeOk i = false →
        (sendLoop env dist tsFile (A.take (i + 1)) (initState fs)).files
          = (sendLoop env dist tsFile (A.take i) (initState fs)).files
        ∧ (sendLoop env dist tsFile (A.take (i + 1)) (initState fs)).sent
          = (sendLoop env dist tsFile (A.take i) (initState fs)).sent
            ++ [(dist, A.get ⟨i, hi⟩)]
        ∧ ∃ st1, run env [dist] fs = .ok st1
            ∧ st1.attempted = A.map (fun e => (dist, e)))
    ∧ (∀ i, (hi : i < A.length) → i + 1 = A.length →
        env.writeOk i = false → (∀ j, j < i → env.writeOk j = true) →
        ∃ st1, run env [dist] fs = .ok st1
          ∧ (dist, A.get ⟨i, hi⟩) ∈ st1.sent
          ∧ lookupFile st1.files P = some (foldlUD (A.take i) w0)
          ∧ ∀ wOk2 : Nat → Bool,
            ∃ st2, run { env with
                sendOk := fun _ => true,
                writeOk := wOk2 } [dist] st1.files = .ok st2
              ∧ (dist, A.get ⟨i, hi⟩) ∈ st2.sent) := by
  intro tsFile P A
  have hApw : A.Pairwise (fun a b => a.updated_date < b.updated_date) :=
    newAsc_pairwise_lt data w0 hnd
  have hAmem : ∀ x ∈ A, w0 < x.updated_date :=
    fun x hx => ((newAsc_mem data w0 x).mp hx).2
  have hsendcnt : ∀ i, i ≤ A.length →
      (sendLoop env dist tsFile (A.take i) (initState fs)).sendCnt = i := by
    intro i hi
    rw [sendLoop_sendCnt]
    simp only [initState, List.length_take]
    omega
  have hwcnt : ∀ i, i ≤ A.length →
      (sendLoop env dist tsFile (A.take i) (initState fs)).writeCnt
        = i := by
    intro i hi
    rw [sendLoop_writeCnt, sentOf_all_true env.sendOk hsend]
    simp only [initState, List.length_take]
    omega
  have htake : ∀ i, (hi : i < A.length) →
      A.take (i + 1) = A.take i ++ [A.get ⟨i, hi⟩] := by
    intro i hi
    rw [List.take_succ]
    congr 1
    rw [List.getElem?_eq_getElem hi]
    rfl
  have honestep : ∀ i, (hi : i < A.length) → env.writeOk i = false →
      sendLoop env dist tsFile (A.take (i + 1)) (initState fs)
        = { sendLoop env dist tsFile (A.take i) (initState fs) with
            sent := (sendLoop env dist tsFile (A.take i)
              (initState fs)).sent ++ [(dist, A.get ⟨i, hi⟩)],
            attempted := (sendLoop env dist tsFile (A.take i)
              (initState fs)).attempted ++ [(dist, A.get ⟨i, hi⟩)],
            sendCnt := (sendLoop env dist tsFile (A.take i)
              (initState fs)).sendCnt + 1,
            writeCnt := (sendLoop env dist tsFile (A.take i)
              (initState fs)).writeCnt + 1 } := by
    intro i hi hwfail
    rw [htake i hi, sendLoop_append]
    exact sendLoop_single_write_fail env dist tsFile _ _
      (by rw [hsendcnt i (le_of_lt hi)]; exact hsend i)
      (by rw [hwcnt i (le_of_lt hi)]; exact hwfail)
  constructor
  · intro i hi hwfail
    refine ⟨?_, ?_, ?_⟩
    · rw [honestep i hi hwfail]
    · rw [honestep i hi hwfail]
    · refine ⟨_, run_single_read env dist url data fs w0 hcfg hfeed hcwd
        hw0, ?_⟩
      rw [sendLoop_attempted]
      simp [initState]
  · intro i hi hilast hwfail hprev
    have hAeq : A.take (i + 1) = A := by
      rw [hilast, List.take_length]
    have hsplit : sendLoop env dist tsFile A (initState fs)
        = { sendLoop env dist tsFile (A.take i) (initState fs) with
            sent := (sendLoop env dist tsFile (A.take i)
              (initState fs)).sent ++ [(dist, A.get ⟨i, hi⟩)],
            attempted := (sendLoop env dist tsFile (A.take i)
              (initState fs)).attempted ++ [(dist, A.get ⟨i, hi⟩)],
            sendCnt := (sendLoop env dist tsFile (A.take i)
              (initState fs)).sendCnt + 1,
            writeCnt := (sendLoop env dist tsFile (A.take i)
              (initState fs)).writeCnt + 1 } := by
      conv_lhs => rw [← hAeq]
      exact honestep i hi hwfail
    have hmid : lookupFile (sendLoop env dist tsFile (A.take i)
        (initState fs)).files P = some (foldlUD (A.take i) w0) := by
      have h := sendLoop_lookup_wm env dist tsFile (A.take i)
        (initState fs) w0 hw0 ?_
      · rw [sentOf_all_true env.sendOk hsend] at h
        exact h
      · intro k hk
        rw [sentOf_all_true env.sendOk hsend, List.length_take] at hk
        have hki : k < i := by omega
        show env.writeOk ((initState fs).writeCnt + k) = true
        simp only [initState, Nat.zero_add]
        exact hprev k hki
    have hw1lt : foldlUD (A.take i) w0 < (A.get ⟨i, hi⟩).updated_date := by
      have hdropi : A.drop i = [A.get ⟨i, hi⟩] := by
        rw [List.drop_eq_getElem_cons hi, hilast, List.drop_length]
        rfl
      have hpa := List.pairwise_append.mp
        ((List.take_append_drop i A).symm ▸ hApw)
      rcases foldlUD_init_or_mem (A.take i) w0 with h | ⟨e, he, hh⟩
      · rw [h]
        exact hAmem _ (A.get_mem i hi)
      · rw [hh]
        exact hpa.2.2 e he (A.get ⟨i, hi⟩) (by rw [hdropi]; simp)
    refine ⟨_, run_single_read env dist url data fs w0 hcfg hfeed hcwd hw0,
      ?_, ?_, ?_⟩
    · rw [hsplit]
      simp
    · rw [hsplit]
      exact hmid
    · intro wOk2
      have hlookup1 : lookupFile (sendLoop env dist tsFile A
          (initState fs)).files P = some (foldlUD (A.take i) w0) := by
        rw [hsplit]
        exact hmid
      have hrun2 := run_single_read
        { env with sendOk := fun _ => true, writeOk := wOk2 } dist url
        data (sendLoop env dist tsFile A (initState fs)).files
        (foldlUD (A.take i) w0) hcfg hfeed hcwd hlookup1
      refine ⟨_, hrun2, ?_⟩
      rw [sendLoop_sent]
      simp only [initState, List.nil_append]
      rw [sentOf_all_true _ (fun _ => rfl)]
      refine List.mem_map.mpr ⟨_, ?_, rfl⟩
      exact (newAsc_mem data _ _).mpr
        ⟨((newAsc_mem data w0 _).mp (A.get_mem i hi)).1, hw1lt⟩

/-- Witness for the amended C10 over the sample feed: both sends succeed
and the second watermark write fails (entry 300, the last new entry). -/
theorem c10_amended_witness :
    let tsFile := "almalinux-8" ++ "_last_processed_ts"
    let P := joinPath "base" tsFile
    let A := newAsc [sampleErrata 300, sampleErrata 200, sampleErrata 100]
      150
    (∀ i, (hi : i < A.length) →
        (sampleEnv (fun _ => true) (fun n => n == 0)).writeOk i = false →
        (sendLoop (sampleEnv (fun _ => true) (fun n => n == 0))
            "almalinux-8" tsFile (A.take (i + 1))
            (initState sampleFs)).files
          = (sendLoop (sampleEnv (fun _ => true) (fun n => n == 0))
              "almalinux-8" tsFile (A.take i) (initState sampleFs)).files
        ∧ (sendLoop (sampleEnv (fun _ => true) (fun n => n == 0))
            "almalinux-8" tsFile (A.take (i + 1))
            (initState sampleFs)).sent
          = (sendLoop (sampleEnv (fun _ => true) (fun n => n == 0))
              "almalinux-8" tsFile (A.take i) (initState sampleFs)).sent
            ++ [("almalinux-8", A.get ⟨i, hi⟩)]
        ∧ ∃ st1, run (sampleEnv (fun _ => true) (fun n => n == 0))
              ["almalinux-8"] sampleFs = .ok st1
            ∧ st1.attempted = A.map (fun e => ("almalinux-8", e)))
    ∧ (∀ i, (hi : i < A.length) → i + 1 = A.length →
        (sampleEnv (fun _ => true) (fun n => n == 0)).writeOk i = false →
        (∀ j, j < i →
          (sampleEnv (fun _ => true) (fun n => n == 0)).writeOk j
            = true) →
        ∃ st1, run (sampleEnv (fun _ => true) (fun n => n == 0))
            ["almalinux-8"] sampleFs = .ok st1
          ∧ ("almalinux-8", A.get ⟨i, hi⟩) ∈ st1.sent
          ∧ lookupFile st1.files P = some (foldlUD (A.take i) 150)
          ∧ ∀ wOk2 : Nat → Bool,
            ∃ st2, run { sampleEnv (fun _ => true) (fun n => n == 0) with
                  sendOk := fun _ => true, writeOk := wOk2 }
                ["almalinux-8"] st1.files = .ok st2
              ∧ ("almalinux-8", A.get ⟨i, hi⟩) ∈ st2.sent) := by
  exact c10_amended (sampleEnv (fun _ => true) (fun n => n == 0))
    "almalinux-8" "https://errata.almalinux.org/8/errata.json"
    [sampleErrata 300, sampleErrata 200, sampleErrata 100] sampleFs 150
    (by decide) rfl rfl
    (show lookupFile sampleFs
      (joinPath "base" ("almalinux-8" ++ "_last_processed_ts")) = some 150
      by decide)
    (by decide) (fun n => rfl)

end ErrataEmailNotifications
